import Mathlib

/-!
Verification of the rgis-mosregru-parse harvest pipeline.

The development shallowly embeds the three Python modules of the repository:

* `scraper.py` — page partitioning (`distribute_pages`), record extraction
  (`process_data`), and the process-pool collection loop (`parallel_fetch_data`);
* `geometry_fetcher.py` — the per-identifier geometry fetch (`fetch_geometry`),
  outcome aggregation (`process_batch`), success filtering and output assembly
  (`fetch_all_geometries` / `create_geojson`);
* `flatten_geojson.py` — the nested-FeatureCollection flatten loop.

JSON data (what `json.loads` produces) is modelled by the inductive type `J`,
with `J.null` playing the role of Python `None` (the `json` module maps JSON
null to `None`, so the two are the same value at runtime, exactly as in the
code). Fallible Python operations (subscripts that may raise `KeyError`,
`TypeError` or `IndexError`, and the division by zero reachable inside
`distribute_pages`) are embedded with `Except` / `Option`. Machine integers
are `Int` (Python integers are unbounded); Python floor division and modulo
are `Int.fdiv` / `Int.fmod`, which share their rounding conventions.
-/

/-- JSON values as decoded by Python json.loads: null becomes None, objects
become insertion-ordered dicts (modelled as association lists), arrays become
lists. Floats do not occur in the data handled by this repository. -/
inductive J where
  | null
  | bool (b : Bool)
  | num (n : Int)
  | str (s : String)
  | arr (elems : List J)
  | obj (entries : List (String × J))

/-- Decidable equality for `J`, written by hand because the automatic deriving
handler does not support this nested inductive. -/
def J.decEq : (a b : J) → Decidable (a = b)
  | .null, .null => isTrue rfl
  | .bool a, .bool b =>
      if h : a = b then isTrue (by rw [h]) else isFalse (fun hh => h (J.bool.inj hh))
  | .num a, .num b =>
      if h : a = b then isTrue (by rw [h]) else isFalse (fun hh => h (J.num.inj hh))
  | .str a, .str b =>
      if h : a = b then isTrue (by rw [h]) else isFalse (fun hh => h (J.str.inj hh))
  | .arr [], .arr [] => isTrue rfl
  | .arr [], .arr (_ :: _) => isFalse (fun h => List.noConfusion (J.arr.inj h))
  | .arr (_ :: _), .arr [] => isFalse (fun h => List.noConfusion (J.arr.inj h))
  | .arr (x :: xs), .arr (y :: ys) =>
      match J.decEq x y, J.decEq (.arr xs) (.arr ys) with
      | isTrue h1, isTrue h2 => isTrue (by subst h1; cases J.arr.inj h2; rfl)
      | isFalse h1, _ => isFalse (fun hh => h1 (List.cons.inj (J.arr.inj hh)).1)
      | _, isFalse h2 => isFalse (fun hh => h2 (congrArg J.arr (List.cons.inj (J.arr.inj hh)).2))
  | .obj [], .obj [] => isTrue rfl
  | .obj [], .obj (_ :: _) => isFalse (fun h => List.noConfusion (J.obj.inj h))
  | .obj (_ :: _), .obj [] => isFalse (fun h => List.noConfusion (J.obj.inj h))
  | .obj ((k1, v1) :: xs), .obj ((k2, v2) :: ys) =>
      match String.decEq k1 k2, J.decEq v1 v2, J.decEq (.obj xs) (.obj ys) with
      | isTrue h1, isTrue h2, isTrue h3 =>
          isTrue (by subst h1; subst h2; cases J.obj.inj h3; rfl)
      | isFalse h1, _, _ =>
          isFalse (fun hh => h1 (congrArg Prod.fst (List.cons.inj (J.obj.inj hh)).1))
      | _, isFalse h2, _ =>
          isFalse (fun hh => h2 (congrArg Prod.snd (List.cons.inj (J.obj.inj hh)).1))
      | _, _, isFalse h3 =>
          isFalse (fun hh => h3 (congrArg J.obj (List.cons.inj (J.obj.inj hh)).2))
  | .null, .bool _ | .null, .num _ | .null, .str _ | .null, .arr _ | .null, .obj _ =>
      isFalse (fun h => nomatch h)
  | .bool _, .null | .bool _, .num _ | .bool _, .str _ | .bool _, .arr _ | .bool _, .obj _ =>
      isFalse (fun h => nomatch h)
  | .num _, .null | .num _, .bool _ | .num _, .str _ | .num _, .arr _ | .num _, .obj _ =>
      isFalse (fun h => nomatch h)
  | .str _, .null | .str _, .bool _ | .str _, .num _ | .str _, .arr _ | .str _, .obj _ =>
      isFalse (fun h => nomatch h)
  | .arr _, .null | .arr _, .bool _ | .arr _, .num _ | .arr _, .str _ | .arr _, .obj _ =>
      isFalse (fun h => nomatch h)
  | .obj _, .null | .obj _, .bool _ | .obj _, .num _ | .obj _, .str _ | .obj _, .arr _ =>
      isFalse (fun h => nomatch h)

instance : DecidableEq J := J.decEq

/-- Python truthiness of a JSON-decoded value: None, False, 0, the empty
string, the empty list and the empty dict are falsy, everything else truthy. -/
def J.truthy : J → Bool
  | .null => false
  | .bool b => b
  | .num n => n ≠ 0
  | .str s => s ≠ ""
  | .arr elems => elems ≠ []
  | .obj entries => entries ≠ []

/-- Whether a value is Python None (JSON null); models the test v is None. -/
def J.isNull : J → Bool
  | .null => true
  | _ => false

/-- Lookup in an insertion-ordered dict represented as an association list.
Keys are unique in every dict the embedded code builds, so the first match is
the only match. -/
def lookupKV {κ β : Type} [DecidableEq κ] : List (κ × β) → κ → Option β
  | [], _ => none
  | kv :: rest, k => if kv.1 = k then some kv.2 else lookupKV rest k

/-- Python dict item assignment d[k] = v: replaces the binding in place when
the key is present (keys of a dict are unique, so at most one binding exists;
this replaces it while preserving insertion order), otherwise appends a new
entry at the end. -/
def insertKV {κ β : Type} [DecidableEq κ] : List (κ × β) → κ → β → List (κ × β)
  | [], k, v => [(k, v)]
  | kv :: rest, k, v => if kv.1 = k then (k, v) :: rest else kv :: insertKV rest k v

/-- Python d1.update(d2): item assignment of every entry of d2 into d1, in
order. -/
def dictUpdate {κ β : Type} [DecidableEq κ] (d1 d2 : List (κ × β)) : List (κ × β) :=
  d2.foldl (fun acc kv => insertKV acc kv.1 kv.2) d1

theorem lookupKV_insertKV {κ β : Type} [DecidableEq κ] (d : List (κ × β)) (k k' : κ) (v : β) :
    lookupKV (insertKV d k v) k' = if k = k' then some v else lookupKV d k' := by
  induction d with
  | nil => simp [insertKV, lookupKV]
  | cons kv rest ih =>
      rw [insertKV]
      by_cases hk : kv.1 = k
      · rw [if_pos hk]
        by_cases hk' : k = k'
        · subst hk'
          simp [lookupKV, hk]
        · simp [lookupKV, hk, hk']
      · rw [if_neg hk, lookupKV, lookupKV]
        by_cases hh : kv.1 = k'
        · rw [if_pos hh, if_pos hh, if_neg (by rw [← hh]; exact fun he => hk he.symm)]
        · rw [if_neg hh, if_neg hh, ih]

theorem lookupKV_append {κ β : Type} [DecidableEq κ] (a b : List (κ × β)) (k : κ) :
    lookupKV (a ++ b) k = (lookupKV a k).or (lookupKV b k) := by
  induction a with
  | nil => simp [lookupKV, Option.or]
  | cons x xs ih => by_cases h : x.1 = k <;> simp [lookupKV, h, ih, Option.or]

theorem lookupKV_eq_none_iff {κ β : Type} [DecidableEq κ] (d : List (κ × β)) (k : κ) :
    lookupKV d k = none ↔ k ∉ d.map Prod.fst := by
  induction d with
  | nil => simp [lookupKV]
  | cons x xs ih =>
      rw [lookupKV]
      by_cases h : x.1 = k
      · simp [h]
      · simp only [if_neg h, ih, List.map_cons, List.mem_cons]
        constructor
        · intro hn hor
          rcases hor with he | hm
          · exact h he.symm
          · exact hn hm
        · intro hn hm
          exact hn (Or.inr hm)

theorem lookupKV_mem {κ β : Type} [DecidableEq κ] (d : List (κ × β)) (k : κ) (v : β)
    (h : lookupKV d k = some v) : (k, v) ∈ d := by
  induction d with
  | nil => simp [lookupKV] at h
  | cons x xs ih =>
      rw [lookupKV] at h
      by_cases hx : x.1 = k
      · rw [if_pos hx] at h
        obtain ⟨x1, x2⟩ := x
        simp only at hx
        subst hx
        cases Option.some.inj h
        exact List.mem_cons_self _ _
      · rw [if_neg hx] at h
        exact List.mem_cons_of_mem _ (ih h)

/-- The contiguous integer range starting at s of the given length, used to
express which page numbers a (start_page, end_page) pair covers. -/
def intRange (s : Int) (len : Nat) : List Int :=
  (List.range len).map (fun (j : Nat) => s + (j : Int))

theorem intRange_append (s : Int) (a b : Nat) :
    intRange s (a + b) = intRange s a ++ intRange (s + (a : Int)) b := by
  unfold intRange
  rw [List.range_add, List.map_append, List.map_map]
  refine congrArg₂ _ rfl ?_
  apply List.map_congr_left
  intro j _
  show s + (((a + j : Nat) : Nat) : Int) = s + (a : Int) + (j : Int)
  push_cast
  ring

/-- The loop of distribute_pages (scraper.py lines 94 to 99): i iterates over
range(workers), start_page is threaded through, and each iteration appends
(start_page, end_page) where end_page = start_page + worker_pages - 1. The
first argument of the recursion is the loop index i, the second the number of
iterations left. -/
def distributeGo (base r : Int) : Nat → Nat → Int → List (Int × Int)
  | _, 0, _ => []
  | i, c + 1, start =>
    (start, start + (base + (if (i : Int) < r then 1 else 0)) - 1) ::
      distributeGo base r (i + 1) c (start + (base + (if (i : Int) < r then 1 else 0)) - 1 + 1)

/-- scraper.py distribute_pages (lines 85 to 101). Python floor division and
modulo on int are Int.fdiv and Int.fmod. When min(workers, max_pages) is zero
the line pages_per_worker = max_pages // workers raises ZeroDivisionError,
modelled as none; when that minimum is negative, range(workers) is empty
(toNat of a negative is 0) and the function returns an empty list of ranges
without failing. -/
def distribute_pages (max_pages workers : Int) : Option (List (Int × Int)) :=
  let w := min workers max_pages
  if w = 0 then none
  else some (distributeGo (Int.fdiv max_pages w) (Int.fmod max_pages w) 0 w.toNat 1)

theorem distributeGo_length (base r : Int) :
    ∀ (c i : Nat) (s : Int), (distributeGo base r i c s).length = c
  | 0, _, _ => rfl
  | c + 1, i, s => by
      rw [distributeGo]
      simp [distributeGo_length base r c]

theorem distributeGo_sizes (base r : Int) :
    ∀ (c i : Nat) (s : Int),
      (distributeGo base r i c s).map (fun p => p.2 + 1 - p.1)
        = (List.range c).map (fun (j : Nat) => base + (if ((i : Int) + (j : Int)) < r then 1 else 0))
  | 0, _, _ => rfl
  | c + 1, i, s => by
      rw [distributeGo, List.range_succ_eq_map]
      simp only [List.map_cons, List.map_map]
      refine congrArg₂ _ ?_ ?_
      · show s + (base + (if (i : Int) < r then 1 else 0)) - 1 + 1 - s
          = base + (if ((i : Int) + ((0 : Nat) : Int)) < r then 1 else 0)
        have h0 : ((0 : Nat) : Int) = 0 := rfl
        rw [h0, add_zero]
        ring
      · rw [distributeGo_sizes base r c (i + 1)]
        apply List.map_congr_left
        intro j _
        show base + (if (((i + 1 : Nat) : Int) + (j : Int)) < r then 1 else 0)
          = base + (if ((i : Int) + ((Nat.succ j : Nat) : Int)) < r then 1 else 0)
        congr 1
        apply if_congr _ rfl rfl
        push_cast
        constructor <;> intro <;> omega

/-- The total number of pages the distribute_pages loop assigns across its
remaining iterations. -/
def goTotal (base r : Int) : Nat → Nat → Int
  | _, 0 => 0
  | i, c + 1 => (base + (if (i : Int) < r then 1 else 0)) + goTotal base r (i + 1) c

theorem goTotal_nonneg (base r : Int) (hb : 1 ≤ base) :
    ∀ (c i : Nat), 0 ≤ goTotal base r i c
  | 0, _ => le_refl 0
  | c + 1, i => by
      rw [goTotal]
      have := goTotal_nonneg base r hb c (i + 1)
      split <;> omega

theorem goTotal_closed (base r : Int) :
    ∀ (c i : Nat), goTotal base r i c = (c : Int) * base + max 0 (min (r - (i : Int)) (c : Int))
  | 0, i => by
      rw [goTotal]
      have : min (r - (i : Int)) ((0 : Nat) : Int) ≤ 0 := by
        push_cast
        exact min_le_right _ _
      push_cast
      omega
  | c + 1, i => by
      rw [goTotal, goTotal_closed base r c (i + 1)]
      have hc : ((c + 1 : Nat) : Int) * base = (c : Int) * base + base := by push_cast; ring
      push_cast
      rw [show ((c : Int) + 1) * base = (c : Int) * base + base by ring]
      generalize (c : Int) * base = B
      split <;> omega

theorem distributeGo_flatMap (base r : Int) (hb : 1 ≤ base) :
    ∀ (c i : Nat) (s : Int),
      (distributeGo base r i c s).flatMap (fun p => intRange p.1 (p.2 + 1 - p.1).toNat)
        = intRange s (goTotal base r i c).toNat
  | 0, _, _ => by simp [distributeGo, goTotal, intRange]
  | c + 1, i, s => by
      rw [distributeGo, goTotal, List.flatMap_cons,
        distributeGo_flatMap base r hb c (i + 1)]
      have hwp1 : 1 ≤ base + (if (i : Int) < r then 1 else 0) := by split <;> omega
      have hg := goTotal_nonneg base r hb c (i + 1)
      have htot : ((base + (if (i : Int) < r then 1 else 0)) + goTotal base r (i + 1) c).toNat
          = (base + (if (i : Int) < r then 1 else 0)).toNat + (goTotal base r (i + 1) c).toNat := by
        omega
      rw [htot, intRange_append]
      have hsz : s + (base + (if (i : Int) < r then 1 else 0)) - 1 + 1 - s
          = base + (if (i : Int) < r then 1 else 0) := by ring
      rw [hsz]
      have hcast : s + (((base + (if (i : Int) < r then 1 else 0)).toNat : Nat) : Int)
          = s + (base + (if (i : Int) < r then 1 else 0)) - 1 + 1 := by
        rw [Int.toNat_of_nonneg (by omega)]
        ring
      rw [hcast]

/-- C1: for total_units >= 1 and worker_count >= 1, distribute_pages succeeds
and produces exactly min(worker_count, total_units) ranges; the concatenation
of the pages of the ranges, in order, is exactly the contiguous run
1..total_units (so the ranges are contiguous, non-overlapping, and cover
every page exactly once); with base = total_units // w and r =
total_units % w for w = min(worker_count, total_units), the i-th range has
base+1 pages when i < r and base pages otherwise; hence no two ranges differ
in size by more than 1. Determinism is the final conjunct (the result is the
unique value of a pure function of the inputs). -/
theorem distribute_pages_partitions (n w : Int) (hn : 1 ≤ n) (hw : 1 ≤ w) :
    ∃ ps : List (Int × Int),
      distribute_pages n w = some ps ∧
      ps.length = (min w n).toNat ∧
      ps.flatMap (fun p => intRange p.1 (p.2 + 1 - p.1).toNat) = intRange 1 n.toNat ∧
      ps.map (fun p => p.2 + 1 - p.1)
        = (List.range (min w n).toNat).map
            (fun (j : Nat) => if (j : Int) < Int.fmod n (min w n) then Int.fdiv n (min w n) + 1
              else Int.fdiv n (min w n)) ∧
      (∀ a ∈ ps.map (fun p => p.2 + 1 - p.1), ∀ b ∈ ps.map (fun p => p.2 + 1 - p.1),
        a ≤ b + 1) ∧
      (∀ ps2, distribute_pages n w = some ps2 → ps2 = ps) := by
  have hpos : 0 < min w n := by omega
  have hne : min w n ≠ 0 := by omega
  have hfd : Int.fdiv n (min w n) = n / (min w n) := Int.fdiv_eq_ediv n (by omega)
  have hfm : Int.fmod n (min w n) = n % (min w n) := Int.fmod_eq_emod n (by omega)
  have hb : 1 ≤ n / (min w n) := by
    rw [Int.le_ediv_iff_mul_le hpos]
    have := min_le_right w n
    omega
  have hr0 : 0 ≤ n % (min w n) := Int.emod_nonneg n hne
  have hrlt : n % (min w n) < min w n := Int.emod_lt_of_pos n hpos
  have hid : (min w n) * (n / (min w n)) + n % (min w n) = n := Int.ediv_add_emod n (min w n)
  have hcast : (((min w n).toNat : Nat) : Int) = min w n := Int.toNat_of_nonneg (by omega)
  have htot : goTotal (n / (min w n)) (n % (min w n)) 0 (min w n).toNat = n := by
    rw [goTotal_closed, hcast]
    rw [show (((0 : Nat) : Int)) = 0 from rfl, sub_zero]
    rw [min_eq_left (le_of_lt hrlt), max_eq_right hr0]
    exact hid
  have hsome : distribute_pages n w
      = some (distributeGo (Int.fdiv n (min w n)) (Int.fmod n (min w n)) 0 (min w n).toNat 1) := by
    rw [distribute_pages]
    simp only [if_neg hne]
  have hsizes : (distributeGo (Int.fdiv n (min w n)) (Int.fmod n (min w n)) 0
        (min w n).toNat 1).map (fun p => p.2 + 1 - p.1)
      = (List.range (min w n).toNat).map
          (fun (j : Nat) => if (j : Int) < Int.fmod n (min w n) then Int.fdiv n (min w n) + 1
            else Int.fdiv n (min w n)) := by
    rw [distributeGo_sizes]
    apply List.map_congr_left
    intro j _
    show Int.fdiv n (min w n) + (if (((0 : Nat) : Int) + (j : Int)) < Int.fmod n (min w n)
        then 1 else 0)
      = if (j : Int) < Int.fmod n (min w n) then Int.fdiv n (min w n) + 1
        else Int.fdiv n (min w n)
    rw [show (((0 : Nat) : Int)) = 0 from rfl, zero_add]
    split <;> simp
  refine ⟨distributeGo (Int.fdiv n (min w n)) (Int.fmod n (min w n)) 0 (min w n).toNat 1,
    hsome, distributeGo_length _ _ _ _ _, ?_, hsizes, ?_, ?_⟩
  · rw [hfd, hfm, distributeGo_flatMap _ _ hb, htot]
  · intro a ha b hb2
    rw [hsizes] at ha hb2
    obtain ⟨ja, -, hja⟩ := List.mem_map.1 ha
    obtain ⟨jb, -, hjb⟩ := List.mem_map.1 hb2
    split at hja <;> split at hjb <;> omega
  · intro ps2 h2
    rw [hsome] at h2
    exact (Option.some.inj h2).symm

/-- Witness for C1 at total_units = 7, worker_count = 3: three ranges
(1,3), (4,5), (6,7), whose pages concatenate to 1..7. -/
theorem distribute_pages_partitions_witness :
    distribute_pages 7 3 = some [(1, 3), (4, 5), (6, 7)] ∧
      ∃ ps : List (Int × Int),
        distribute_pages 7 3 = some ps ∧
          ps.flatMap (fun p => intRange p.1 (p.2 + 1 - p.1).toNat) = intRange 1 (7 : Int).toNat := by
  refine ⟨by decide, ?_⟩
  obtain ⟨ps, h1, -, h3, -⟩ := distribute_pages_partitions 7 3 (by norm_num) (by norm_num)
  exact ⟨ps, h1, h3⟩

/-- Result of one HTTP GET as seen by fetch_geometry: a response carrying a
status code and a body whose JSON decoding may fail (response.json raising),
or an exception raised during the request itself. -/
inductive HttpResult where
  | response (status : Nat) (body : Except String J)
  | netError (msg : String)

/-- geometry_fetcher.py fetch_geometry (lines 12 to 31), semaphore
acquisition elided since it does not affect the returned value. Every failure
path — exception during the request, non-200 status, body that fails to
decode, decoded body that is not a dict (the membership test or the subscript
then raises inside the try and is caught), dict without the geometry key —
yields (geometry_id, None); the happy path returns (geometry_id,
data["geometry"]). -/
def fetch_geometry (fetch : J → HttpResult) (geometry_id : J) : J × J :=
  match fetch geometry_id with
  | .response status body =>
      if status = 200 then
        match body with
        | .ok (J.obj kvs) =>
            match lookupKV kvs "geometry" with
            | some g => (geometry_id, g)
            | none => (geometry_id, J.null)
        | .ok _ => (geometry_id, J.null)
        | .error _ => (geometry_id, J.null)
      else (geometry_id, J.null)
  | .netError _ => (geometry_id, J.null)

/-- The aggregation loop of process_batch (geometry_fetcher.py lines 45 to
48): results[geometry_id] = geometry for each outcome, in arrival order,
starting from the empty dict. -/
def aggregate_outcomes (outcomes : List (J × J)) : List (J × J) :=
  outcomes.foldl (fun results kv => insertKV results kv.1 kv.2) []

/-- The task list process_batch creates (geometry_fetcher.py lines 39 to 43):
one fetch per truthy geometry_id, in input order; falsy ids are skipped. -/
def batch_tasks (geometry_ids : List J) : List J :=
  geometry_ids.filter (fun g => g.truthy)

/-- geometry_fetcher.py process_batch (lines 34 to 51): one fetch_geometry
task per truthy geometry_id, each completed outcome inserted into the results
dict. asyncio.as_completed yields outcomes in arbitrary order, so the
completion order is the parameter arrival: the task ids in the order their
fetches completed (a permutation of batch_tasks applied to the input ids).
The semaphore bound max_concurrent_requests does not influence the value. -/
def process_batch (fetch : J → HttpResult) (arrival : List J) : List (J × J) :=
  aggregate_outcomes (arrival.map (fun g => fetch_geometry fetch g))

/-- The success filter of fetch_all_geometries (geometry_fetcher.py line 79):
keep only the entries whose geometry is not None. -/
def drop_null_geometries (geometries : List (J × J)) : List (J × J) :=
  geometries.filter (fun kv => !kv.2.isNull)

/-- Python item.get(k) on a record dict: the value when the key is present,
None otherwise. -/
def item_get (item : List (String × J)) (k : String) : J :=
  (lookupKV item k).getD J.null

/-- The properties_map of fetch_all_geometries (geometry_fetcher.py lines 58
to 64): for each record with a truthy geometry_id, map that id to a dict of
its zone_code and municipality. -/
def properties_map_of (data : List (List (String × J))) : List (J × List (String × J)) :=
  data.foldl
    (fun pm item =>
      if (item_get item "geometry_id").truthy then
        insertKV pm (item_get item "geometry_id")
          [("zone_code", item_get item "zone_code"),
           ("municipality", item_get item "municipality")]
      else pm) []

/-- The geometry_ids list of fetch_all_geometries (geometry_fetcher.py line
66): the truthy geometry_id of each record, in input order. -/
def geometry_ids_of (data : List (List (String × J))) : List J :=
  (data.filter (fun item => (item_get item "geometry_id").truthy)).map
    (fun item => item_get item "geometry_id")

/-- One feature built by create_geojson (geometry_fetcher.py lines 93 to
105); additional_props is properties_map.get(geometry_id, {}) and its .get
calls default to None. -/
def create_feature (properties_map : List (J × List (String × J))) (kv : J × J) : J :=
  J.obj
    [("type", J.str "Feature"),
     ("properties", J.obj
        [("geometry_id", kv.1),
         ("zone_code", item_get ((lookupKV properties_map kv.1).getD []) "zone_code"),
         ("municipality", item_get ((lookupKV properties_map kv.1).getD []) "municipality")]),
     ("geometry", kv.2)]

/-- The features list of create_geojson (geometry_fetcher.py lines 91 to
105), iterating the geometries dict in insertion order. -/
def create_geojson_features (geometries : List (J × J))
    (properties_map : List (J × List (String × J))) : List J :=
  geometries.map (create_feature properties_map)

/-- geometry_fetcher.py create_geojson (lines 90 to 112). -/
def create_geojson (geometries : List (J × J))
    (properties_map : List (J × List (String × J))) : J :=
  J.obj
    [("type", J.str "FeatureCollection"),
     ("features", J.arr (create_geojson_features geometries properties_map))]

/-- geometry_fetcher.py fetch_all_geometries (lines 54 to 87) with file I/O
elided: build properties_map and geometry_ids from the input records (the
input file holds the list of record objects written by scraper.py), aggregate
the batch outcomes (arrival is the completion order of the created tasks),
keep only the non-None geometries, and assemble the GeoJSON document. -/
def fetch_all_geometries (fetch : J → HttpResult) (data : List (List (String × J)))
    (arrival : List J) : J :=
  create_geojson (drop_null_geometries (process_batch fetch arrival)) (properties_map_of data)

theorem lookupKV_foldl_insert {κ β : Type} [DecidableEq κ] (l : List (κ × β))
    (d : List (κ × β)) (k : κ) :
    lookupKV (l.foldl (fun acc kv => insertKV acc kv.1 kv.2) d) k
      = (lookupKV l.reverse k).or (lookupKV d k) := by
  induction l generalizing d with
  | nil => simp [lookupKV, Option.or]
  | cons x xs ih =>
      rw [List.foldl_cons, ih, List.reverse_cons, lookupKV_append, lookupKV_insertKV]
      cases hxs : lookupKV xs.reverse k with
      | some v => simp [Option.or]
      | none =>
          simp only [Option.or]
          rw [lookupKV, lookupKV]
          by_cases hx : x.1 = k <;> simp [hx]

theorem lookupKV_aggregate (l : List (J × J)) (k : J) :
    lookupKV (aggregate_outcomes l) k = lookupKV l.reverse k := by
  rw [aggregate_outcomes, lookupKV_foldl_insert]
  cases h : lookupKV l.reverse k <;> simp [Option.or, lookupKV]

theorem lookupKV_reverse_nodup {κ β : Type} [DecidableEq κ] (d : List (κ × β))
    (h : (d.map Prod.fst).Nodup) (k : κ) :
    lookupKV d.reverse k = lookupKV d k := by
  induction d with
  | nil => rfl
  | cons x xs ih =>
      rw [List.map_cons, List.nodup_cons] at h
      rw [List.reverse_cons, lookupKV_append, lookupKV]
      by_cases hx : x.1 = k
      · rw [if_pos hx]
        have hnone : lookupKV xs.reverse k = none := by
          rw [lookupKV_eq_none_iff, List.map_reverse, List.mem_reverse]
          rw [← hx]
          exact h.1
        rw [hnone]
        simp [lookupKV, hx, Option.or]
      · rw [if_neg hx, ih h.2]
        cases hxs : lookupKV xs k <;> simp [lookupKV, hx, Option.or, hxs]

theorem lookupKV_perm {κ β : Type} [DecidableEq κ] {l l' : List (κ × β)}
    (hp : l.Perm l') (h : (l.map Prod.fst).Nodup) (k : κ) :
    lookupKV l k = lookupKV l' k := by
  induction hp with
  | nil => rfl
  | cons x hp ih =>
      rw [List.map_cons, List.nodup_cons] at h
      rw [lookupKV, lookupKV, ih h.2]
  | swap x y l =>
      rw [List.map_cons, List.map_cons, List.nodup_cons, List.nodup_cons] at h
      have hxy : y.1 ≠ x.1 := fun he => h.1 (by rw [he]; exact List.mem_cons_self _ _)
      by_cases hx : x.1 = k <;> by_cases hy : y.1 = k <;>
        simp [lookupKV, hx, hy]
      exact absurd (hy.trans hx.symm) hxy
  | trans p1 p2 ih1 ih2 =>
      have h2 := (p1.map Prod.fst).nodup_iff.1 h
      rw [ih1 h, ih2 h2]

theorem mem_insertKV {κ β : Type} [DecidableEq κ] (d : List (κ × β)) (k : κ) (v : β)
    (kv : κ × β) (h : kv ∈ insertKV d k v) : kv ∈ d ∨ kv = (k, v) := by
  induction d with
  | nil => simp [insertKV] at h; right; exact h
  | cons x xs ih =>
      rw [insertKV] at h
      by_cases hx : x.1 = k
      · rw [if_pos hx] at h
        rcases List.mem_cons.1 h with he | hm
        · right; exact he
        · left; exact List.mem_cons_of_mem _ hm
      · rw [if_neg hx] at h
        rcases List.mem_cons.1 h with he | hm
        · left; rw [he]; exact List.mem_cons_self _ _
        · rcases ih hm with hd | he
          · left; exact List.mem_cons_of_mem _ hd
          · right; exact he

theorem mem_aggregate (l : List (J × J)) (kv : J × J)
    (h : kv ∈ aggregate_outcomes l) : kv ∈ l := by
  rw [aggregate_outcomes] at h
  suffices hgen : ∀ d : List (J × J), kv ∈ l.foldl (fun acc p => insertKV acc p.1 p.2) d →
      kv ∈ d ∨ kv ∈ l by
    rcases hgen [] h with hd | hl
    · simp at hd
    · exact hl
  clear h
  induction l with
  | nil => intro d h; left; exact h
  | cons x xs ih =>
      intro d h
      rw [List.foldl_cons] at h
      rcases ih _ h with hd | hl
      · rcases mem_insertKV _ _ _ _ hd with hd2 | he
        · left; exact hd2
        · right; rw [he]; exact List.mem_cons_self _ _
      · right; exact List.mem_cons_of_mem _ hl

theorem keys_insertKV_subset {κ β : Type} [DecidableEq κ] (d : List (κ × β)) (k : κ) (v : β)
    (a : κ) (h : a ∈ (insertKV d k v).map Prod.fst) : a ∈ d.map Prod.fst ∨ a = k := by
  rcases List.mem_map.1 h with ⟨kv, hm, he⟩
  rcases mem_insertKV _ _ _ _ hm with hd | hkv
  · left; exact he ▸ List.mem_map_of_mem _ hd
  · right; rw [← he, hkv]

theorem nodup_keys_insertKV {κ β : Type} [DecidableEq κ] (d : List (κ × β)) (k : κ) (v : β)
    (h : (d.map Prod.fst).Nodup) : ((insertKV d k v).map Prod.fst).Nodup := by
  induction d with
  | nil => simp [insertKV]
  | cons x xs ih =>
      rw [List.map_cons, List.nodup_cons] at h
      rw [insertKV]
      by_cases hx : x.1 = k
      · rw [if_pos hx, List.map_cons, List.nodup_cons]
        exact ⟨by rw [← hx]; exact h.1, h.2⟩
      · rw [if_neg hx, List.map_cons, List.nodup_cons]
        refine ⟨fun hmem => ?_, ih h.2⟩
        rcases keys_insertKV_subset _ _ _ _ hmem with hk | he
        · exact h.1 hk
        · exact hx he

theorem nodup_keys_aggregate (l : List (J × J)) :
    ((aggregate_outcomes l).map Prod.fst).Nodup := by
  rw [aggregate_outcomes]
  suffices hgen : ∀ d : List (J × J), (d.map Prod.fst).Nodup →
      ((l.foldl (fun acc p => insertKV acc p.1 p.2) d).map Prod.fst).Nodup from
    hgen [] (by simp)
  induction l with
  | nil => intro d hd; exact hd
  | cons x xs ih =>
      intro d hd
      rw [List.foldl_cons]
      exact ih _ (nodup_keys_insertKV _ _ _ hd)

theorem lookupKV_filter_value {κ β : Type} [DecidableEq κ] (p : β → Bool)
    (d : List (κ × β)) (h : (d.map Prod.fst).Nodup) (k : κ) :
    lookupKV (d.filter (fun kv => p kv.2)) k
      = (lookupKV d k).bind (fun v => if p v then some v else none) := by
  induction d with
  | nil => simp [lookupKV]
  | cons x xs ih =>
      rw [List.map_cons, List.nodup_cons] at h
      rw [List.filter_cons, lookupKV]
      by_cases hx : x.1 = k
      · rw [if_pos hx]
        by_cases hp : p x.2
        · simp only [hp, if_true, lookupKV, if_pos hx, Option.bind]
        · simp only [hp, Bool.false_eq_true, if_false, Option.bind]
          rw [lookupKV_eq_none_iff]
          intro hmem
          apply h.1
          have hsub : ((xs.filter (fun kv => p kv.2)).map Prod.fst).Sublist (xs.map Prod.fst) :=
            (List.filter_sublist xs).map Prod.fst
          rw [← hx] at hmem
          exact hsub.subset hmem
      · rw [if_neg hx]
        by_cases hp : p x.2
        · simp only [hp, if_true, lookupKV, if_neg hx]
          exact ih h.2
        · simp only [hp, Bool.false_eq_true, if_false]
          exact ih h.2

theorem lookupKV_drop_null (d : List (J × J)) (h : (d.map Prod.fst).Nodup) (k : J) :
    lookupKV (drop_null_geometries d) k
      = (lookupKV d k).bind (fun v => if !v.isNull then some v else none) := by
  rw [drop_null_geometries]
  exact lookupKV_filter_value (fun (v : J) => !v.isNull) d h k

/-- C3: aggregating a fixed set of (WorkUnit, FetchOutcome) pairs — each
WorkUnit bound to exactly one outcome, so the keys are distinct — in any
permutation of arrival order yields an identical results dict (Python dict
equality is key-by-key lookup equality), and hence an identical ResultSet
after the success filter of geometry_fetcher.py line 79. -/
theorem aggregate_outcomes_order_invariant (l l' : List (J × J))
    (hnd : (l.map Prod.fst).Nodup) (hp : l'.Perm l) :
    (∀ k, lookupKV (aggregate_outcomes l') k = lookupKV (aggregate_outcomes l) k) ∧
    (∀ k, lookupKV (drop_null_geometries (aggregate_outcomes l')) k
        = lookupKV (drop_null_geometries (aggregate_outcomes l)) k) := by
  have hnd' : (l'.map Prod.fst).Nodup := ((hp.map Prod.fst).nodup_iff).2 hnd
  have h1 : ∀ k, lookupKV (aggregate_outcomes l') k = lookupKV (aggregate_outcomes l) k := by
    intro k
    rw [lookupKV_aggregate, lookupKV_aggregate,
      lookupKV_reverse_nodup _ hnd' k, lookupKV_reverse_nodup _ hnd k]
    exact lookupKV_perm hp hnd' k
  refine ⟨h1, fun k => ?_⟩
  rw [lookupKV_drop_null _ (nodup_keys_aggregate l') k,
    lookupKV_drop_null _ (nodup_keys_aggregate l) k, h1 k]

/-- Witness for C3: the two-outcome set {(a, 1), (b, None)} aggregated in
either arrival order gives the same dict and the same filtered ResultSet. -/
theorem aggregate_outcomes_order_invariant_witness :
    lookupKV (aggregate_outcomes [(J.str "b", J.null), (J.str "a", J.num 1)]) (J.str "a")
        = lookupKV (aggregate_outcomes [(J.str "a", J.num 1), (J.str "b", J.null)]) (J.str "a") ∧
      lookupKV (drop_null_geometries
            (aggregate_outcomes [(J.str "b", J.null), (J.str "a", J.num 1)])) (J.str "b")
        = lookupKV (drop_null_geometries
            (aggregate_outcomes [(J.str "a", J.num 1), (J.str "b", J.null)])) (J.str "b") := by
  have h := aggregate_outcomes_order_invariant
      [(J.str "a", J.num 1), (J.str "b", J.null)]
      [(J.str "b", J.null), (J.str "a", J.num 1)]
      (by simp) (List.Perm.swap _ _ _)
  exact ⟨h.1 _, h.2 _⟩

/-- C4: the ResultSet kept after the success filter of line 79 holds only
non-None geometries; every feature create_geojson assembles from it binds
the geometry key to a non-None value, so the final collection never contains
a feature with a null geometry; and a unit whose fetched geometry was None is
absent from the filtered ResultSet altogether — the record is dropped, not
emitted without geometry. -/
theorem resultset_successes_only (raw : List (J × J)) (pm : List (J × List (String × J))) :
    (∀ kv ∈ drop_null_geometries raw, kv.2.isNull = false) ∧
    (∀ f ∈ create_geojson_features (drop_null_geometries raw) pm,
        ∃ fo g, f = J.obj fo ∧ lookupKV fo "geometry" = some g ∧ g.isNull = false) ∧
    (∀ k, (raw.map Prod.fst).Nodup → lookupKV raw k = some J.null →
        lookupKV (drop_null_geometries raw) k = none) := by
  have h1 : ∀ kv ∈ drop_null_geometries raw, kv.2.isNull = false := by
    intro kv hm
    have h2 := (List.mem_filter.1 hm).2
    simpa using h2
  refine ⟨h1, ?_, ?_⟩
  · intro f hf
    rcases List.mem_map.1 hf with ⟨kv, hkv, he⟩
    refine ⟨[("type", J.str "Feature"),
      ("properties", J.obj [("geometry_id", kv.1),
         ("zone_code", item_get ((lookupKV pm kv.1).getD []) "zone_code"),
         ("municipality", item_get ((lookupKV pm kv.1).getD []) "municipality")]),
      ("geometry", kv.2)], kv.2, ?_, ?_, h1 kv hkv⟩
    · rw [← he, create_feature]
    · simp [lookupKV]
  · intro k hnd hlk
    rw [lookupKV_drop_null raw hnd k, hlk]
    simp [J.isNull]

/-- Witness for C4: with outcomes {(A, some object), (B, None)}, B is absent
from the filtered ResultSet, and the assembled feature for A carries a
non-null geometry. -/
theorem resultset_successes_only_witness :
    lookupKV (drop_null_geometries [(J.str "A", J.obj [("t", J.num 0)]), (J.str "B", J.null)])
        (J.str "B") = none ∧
      ∃ fo g,
        create_feature [] (J.str "A", J.obj [("t", J.num 0)]) = J.obj fo ∧
          lookupKV fo "geometry" = some g ∧ g.isNull = false := by
  have h := resultset_successes_only [(J.str "A", J.obj [("t", J.num 0)]), (J.str "B", J.null)] []
  refine ⟨h.2.2 (J.str "B") (by simp) (by simp [lookupKV]), ?_⟩
  have hf : create_feature [] (J.str "A", J.obj [("t", J.num 0)])
      ∈ create_geojson_features (drop_null_geometries
          [(J.str "A", J.obj [("t", J.num 0)]), (J.str "B", J.null)]) [] := by
    simp [create_geojson_features, drop_null_geometries, J.isNull, List.filter]
  exact h.2.1 _ hf

/-- The failure kinds of a single fetch, read off fetch_geometry (lines 12 to
31): exception during the request, non-success HTTP status, body that fails
to decode or is not a dict (malformed payload), or a dict missing the
expected geometry field. -/
def isFailureResult : HttpResult → Bool
  | .netError _ => true
  | .response status body =>
      if status = 200 then
        match body with
        | .ok (J.obj kvs) => (lookupKV kvs "geometry").isNone
        | .ok _ => true
        | .error _ => true
      else true

/-- The second component fetch_geometry pairs with the unit identifier, as a
function of the raw HTTP result alone (lines 16 to 31 of
geometry_fetcher.py); proven below to agree with fetch_geometry. -/
def fetchValue : HttpResult → J
  | .netError _ => J.null
  | .response status body =>
      if status = 200 then
        match body with
        | .ok (J.obj kvs) => (lookupKV kvs "geometry").getD J.null
        | .ok _ => J.null
        | .error _ => J.null
      else J.null

theorem fetch_geometry_eq (f : J → HttpResult) (g : J) :
    fetch_geometry f g = (g, fetchValue (f g)) := by
  unfold fetch_geometry
  rcases hfg : f g with ⟨status, body⟩ | m
  · simp only [fetchValue]
    by_cases hs : status = 200
    · rw [if_pos hs, if_pos hs]
      rcases body with e | j
      · rfl
      · rcases j with _ | b | n | s | es | kvs
        · rfl
        · rfl
        · rfl
        · rfl
        · rfl
        · show (match lookupKV kvs "geometry" with
              | some g1 => (g, g1)
              | none => (g, J.null))
            = (g, (lookupKV kvs "geometry").getD J.null)
          cases lookupKV kvs "geometry" <;> rfl
    · rw [if_neg hs, if_neg hs]
  · rfl

theorem fetch_geometry_fst (f : J → HttpResult) (g : J) :
    (fetch_geometry f g).1 = g := by
  rw [fetch_geometry_eq]

theorem fetchValue_of_failure (r : HttpResult) (h : isFailureResult r = true) :
    fetchValue r = J.null := by
  cases r with
  | netError m => rfl
  | response status body =>
      simp only [isFailureResult] at h
      simp only [fetchValue]
      by_cases hs : status = 200
      · rw [if_pos hs] at h ⊢
        cases body with
        | error e => rfl
        | ok j =>
            cases j with
            | obj kvs =>
                simp only [Option.isNone_iff_eq_none] at h
                show (lookupKV kvs "geometry").getD J.null = J.null
                rw [h]
                rfl
            | null => rfl
            | bool b => rfl
            | num n => rfl
            | str s => rfl
            | arr es => rfl
      · rw [if_neg hs]

theorem fetch_geometry_of_failure (f : J → HttpResult) (u : J)
    (hfail : isFailureResult (f u) = true) : fetch_geometry f u = (u, J.null) := by
  rw [fetch_geometry_eq, fetchValue_of_failure _ hfail]

theorem lookupKV_drop_null_eq_none (d : List (J × J)) (u : J)
    (h : ∀ kv ∈ d, kv.1 = u → kv.2.isNull = true) :
    lookupKV (drop_null_geometries d) u = none := by
  rw [drop_null_geometries, lookupKV_eq_none_iff]
  intro hmem
  rcases List.mem_map.1 hmem with ⟨kv, hkv, he⟩
  have hf := List.mem_filter.1 hkv
  have hne := hf.2
  simp only [Bool.not_eq_true'] at hne
  rw [h kv hf.1 he] at hne
  exact Bool.noConfusion hne

/-- C5: a single failing unit (network exception, non-200 status, malformed
payload, or missing geometry field) is caught inside fetch_geometry and
converted into the (unit, None) failure outcome for that unit only: the unit
is permanently absent from the filtered ResultSet of the run (there is no
retry anywhere that could add it back), while the outcome recorded for every
other unit of the run is unchanged, whatever the completion order arrival of
the batch. -/
theorem fetch_failure_isolated (f fBad : J → HttpResult) (u : J) (arrival : List J)
    (hagree : ∀ x, x ≠ u → fBad x = f x) (hfail : isFailureResult (fBad u) = true) :
    fetch_geometry fBad u = (u, J.null) ∧
    lookupKV (drop_null_geometries (process_batch fBad arrival)) u = none ∧
    (∀ k, k ≠ u →
      lookupKV (drop_null_geometries (process_batch fBad arrival)) k
        = lookupKV (drop_null_geometries (process_batch f arrival)) k) := by
  have h1 := fetch_geometry_of_failure fBad u hfail
  refine ⟨h1, ?_, ?_⟩
  · rw [process_batch]
    apply lookupKV_drop_null_eq_none
    intro kv hkv hk
    have hkv2 := mem_aggregate _ _ hkv
    rcases List.mem_map.1 hkv2 with ⟨g, _, he⟩
    have hfst : g = kv.1 := by rw [← he]; exact (fetch_geometry_fst fBad g).symm
    have hgu : g = u := by rw [hfst, hk]
    rw [← he, hgu, h1]
    rfl
  · intro k hk
    have hl : ∀ xs : List J,
        lookupKV (xs.map (fun g => fetch_geometry fBad g)) k
          = lookupKV (xs.map (fun g => fetch_geometry f g)) k := by
      intro xs
      induction xs with
      | nil => rfl
      | cons g rest ih =>
          simp only [List.map_cons, lookupKV, fetch_geometry_eq fBad g, fetch_geometry_eq f g]
          by_cases hg : g = k
          · rw [if_pos hg, if_pos hg, hagree g (by rw [hg]; exact hk)]
          · rw [if_neg hg, if_neg hg]
            exact ih
    rw [process_batch, process_batch,
      lookupKV_drop_null _ (nodup_keys_aggregate _) k,
      lookupKV_drop_null _ (nodup_keys_aggregate _) k,
      lookupKV_aggregate, lookupKV_aggregate,
      ← List.map_reverse, ← List.map_reverse, hl arrival.reverse]

/-- Witness for C5 with two units a and u: u hits a network error, a
succeeds; u is converted to the None outcome and absent from the filtered
ResultSet, and the recorded outcome of a is the same as in a run where u
does not fail. -/
theorem fetch_failure_isolated_witness :
    fetch_geometry
        (fun x => if x = J.str "u" then HttpResult.netError "boom"
          else HttpResult.response 200 (Except.ok (J.obj [("geometry", J.num 5)])))
        (J.str "u") = (J.str "u", J.null) ∧
      lookupKV (drop_null_geometries (process_batch
          (fun x => if x = J.str "u" then HttpResult.netError "boom"
            else HttpResult.response 200 (Except.ok (J.obj [("geometry", J.num 5)])))
          [J.str "a", J.str "u"])) (J.str "u") = none ∧
      lookupKV (drop_null_geometries (process_batch
          (fun x => if x = J.str "u" then HttpResult.netError "boom"
            else HttpResult.response 200 (Except.ok (J.obj [("geometry", J.num 5)])))
          [J.str "a", J.str "u"])) (J.str "a")
        = lookupKV (drop_null_geometries (process_batch
            (fun _ => HttpResult.response 200 (Except.ok (J.obj [("geometry", J.num 5)])))
            [J.str "a", J.str "u"])) (J.str "a") := by
  have h := fetch_failure_isolated
      (fun _ => HttpResult.response 200 (Except.ok (J.obj [("geometry", J.num 5)])))
      (fun x => if x = J.str "u" then HttpResult.netError "boom"
        else HttpResult.response 200 (Except.ok (J.obj [("geometry", J.num 5)])))
      (J.str "u") [J.str "a", J.str "u"]
      (fun x hx => if_neg hx) (by simp [isFailureResult])
  exact ⟨h.1, h.2.1, h.2.2 (J.str "a") (by simp)⟩

theorem length_insertKV {κ β : Type} [DecidableEq κ] (d : List (κ × β)) (k : κ) (v : β) :
    (insertKV d k v).length ≤ d.length + 1 := by
  induction d with
  | nil => simp [insertKV]
  | cons x rest ih =>
      rw [insertKV]
      by_cases hx : x.1 = k
      · rw [if_pos hx]
        simp
      · rw [if_neg hx]
        simp only [List.length_cons]
        omega

theorem length_aggregate (l : List (J × J)) :
    (aggregate_outcomes l).length ≤ l.length := by
  rw [aggregate_outcomes]
  suffices hgen : ∀ d : List (J × J),
      (l.foldl (fun acc p => insertKV acc p.1 p.2) d).length ≤ d.length + l.length by
    simpa using hgen []
  induction l with
  | nil => intro d; simp
  | cons x xs ih =>
      intro d
      rw [List.foldl_cons]
      have h1 := ih (insertKV d x.1 x.2)
      have h2 := length_insertKV d x.1 x.2
      simp only [List.length_cons]
      omega

theorem keys_map_fetch (fetch : J → HttpResult) (arrival : List J) :
    (arrival.map (fun g => fetch_geometry fetch g)).map Prod.fst = arrival := by
  rw [List.map_map]
  have h : ∀ g ∈ arrival, (Prod.fst ∘ fun g => fetch_geometry fetch g) g = (fun g => g) g := by
    intro g _
    exact fetch_geometry_fst fetch g
  rw [List.map_congr_left h]
  exact List.map_id _

/-- C7: the length of the assembled feature collection is at most the number
of input records, and it can only equal it when every record joined and
fetched successfully: each record carries a truthy geometry_id (it is joined)
and its fetch returned a non-None geometry. arrival is the completion order
of the batch, a permutation of the created tasks. -/
theorem output_size_invariant (fetch : J → HttpResult) (data : List (List (String × J)))
    (arrival : List J)
    (hperm : arrival.Perm (batch_tasks (geometry_ids_of data))) :
    (create_geojson_features (drop_null_geometries (process_batch fetch arrival))
        (properties_map_of data)).length ≤ data.length ∧
    ((create_geojson_features (drop_null_geometries (process_batch fetch arrival))
        (properties_map_of data)).length = data.length →
      ∀ item ∈ data, (item_get item "geometry_id").truthy = true ∧
        (fetch_geometry fetch (item_get item "geometry_id")).2.isNull = false) := by
  have htasks : batch_tasks (geometry_ids_of data) = geometry_ids_of data := by
    rw [batch_tasks]
    apply List.filter_eq_self.2
    intro g hg
    rcases List.mem_map.1 hg with ⟨item, hitem, he⟩
    rw [← he]
    exact (List.mem_filter.1 hitem).2
  have hlen_g : (geometry_ids_of data).length ≤ data.length := by
    rw [geometry_ids_of, List.length_map]
    exact List.length_filter_le _ _
  have hlen_arr : arrival.length = (geometry_ids_of data).length := by
    rw [hperm.length_eq, htasks]
  have hlen_agg : (process_batch fetch arrival).length ≤ arrival.length := by
    rw [process_batch]
    exact (length_aggregate _).trans (le_of_eq (List.length_map _ _))
  have hlen_drop : (drop_null_geometries (process_batch fetch arrival)).length
      ≤ (process_batch fetch arrival).length := List.length_filter_le _ _
  have hfeat : (create_geojson_features (drop_null_geometries (process_batch fetch arrival))
      (properties_map_of data)).length
      = (drop_null_geometries (process_batch fetch arrival)).length := by
    rw [create_geojson_features, List.length_map]
  refine ⟨by omega, ?_⟩
  intro hEq item hitem
  have hgl : (data.filter (fun item => (item_get item "geometry_id").truthy)).length
      = (geometry_ids_of data).length := by
    rw [geometry_ids_of, List.length_map]
  have hfilter : data.filter (fun item => (item_get item "geometry_id").truthy) = data :=
    List.Sublist.eq_of_length (List.filter_sublist data) (by omega)
  have htruthy : (item_get item "geometry_id").truthy = true :=
    List.filter_eq_self.1 hfilter item hitem
  refine ⟨htruthy, ?_⟩
  have hdropEq : drop_null_geometries (process_batch fetch arrival) = process_batch fetch arrival :=
    List.Sublist.eq_of_length (List.filter_sublist _) (by omega)
  have hall : ∀ kv ∈ process_batch fetch arrival, (!kv.2.isNull) = true :=
    List.filter_eq_self.1 hdropEq
  have hgid_mem : item_get item "geometry_id" ∈ arrival := by
    apply (hperm.mem_iff).2
    rw [htasks, geometry_ids_of]
    exact List.mem_map_of_mem _ (List.mem_filter.2 ⟨hitem, htruthy⟩)
  have hkey : item_get item "geometry_id"
      ∈ ((arrival.map (fun g => fetch_geometry fetch g)).map Prod.fst) := by
    rw [keys_map_fetch]
    exact hgid_mem
  have hlook : lookupKV (process_batch fetch arrival) (item_get item "geometry_id") ≠ none := by
    rw [process_batch, lookupKV_aggregate, Ne, lookupKV_eq_none_iff, List.map_reverse,
      List.mem_reverse]
    intro hcon
    exact hcon hkey
  cases hv : lookupKV (process_batch fetch arrival) (item_get item "geometry_id") with
  | none => exact absurd hv hlook
  | some v =>
      have hmemR := lookupKV_mem _ _ _ hv
      have hnn : (!v.isNull) = true := hall _ hmemR
      have hmemL : (item_get item "geometry_id", v)
          ∈ arrival.map (fun g => fetch_geometry fetch g) := by
        rw [process_batch] at hmemR
        exact mem_aggregate _ _ hmemR
      rcases List.mem_map.1 hmemL with ⟨g, _, he⟩
      have hg : g = item_get item "geometry_id" := by
        have := congrArg Prod.fst he
        rw [fetch_geometry_fst] at this
        exact this
      have hv2 : (fetch_geometry fetch (item_get item "geometry_id")).2 = v := by
        rw [← hg, he]
      rw [hv2]
      simpa using hnn

/-- Witness for C7 at a single record with a successful fetch, with arrival
equal to the task order. -/
theorem output_size_invariant_witness :
    (create_geojson_features
        (drop_null_geometries (process_batch
          (fun _ => HttpResult.response 200 (Except.ok (J.obj [("geometry", J.num 7)])))
          (batch_tasks (geometry_ids_of [[("geometry_id", J.str "A")]]))))
        (properties_map_of [[("geometry_id", J.str "A")]])).length
      ≤ ([[("geometry_id", J.str "A")]] : List (List (String × J))).length := by
  have h := output_size_invariant
      (fun _ => HttpResult.response 200 (Except.ok (J.obj [("geometry", J.num 7)])))
      [[("geometry_id", J.str "A")]]
      (batch_tasks (geometry_ids_of [[("geometry_id", J.str "A")]]))
      (List.Perm.refl _)
  exact h.1

/-- The collection loop of parallel_fetch_data (scraper.py lines 111 to 128):
for each completed worker future, result() is requested inside a try —
all_data is extended on success, and a raised worker exception is caught and
reported together with the owning page range. workerResult gives each worker
outcome (ok data, or error when the isolated browser context raised);
completed is the order in which as_completed yielded the futures. Returns
the pair (all_data, reported worker errors). -/
def collect_worker_results (workerResult : Int × Int → Except String (List J))
    (completed : List (Int × Int)) : List J × List ((Int × Int) × String) :=
  completed.foldl
    (fun acc pr =>
      match workerResult pr with
      | .ok d => (acc.1 ++ d, acc.2)
      | .error e => (acc.1, acc.2 ++ [(pr, e)]))
    ([], [])

theorem collect_worker_results_closed (wr : Int × Int → Except String (List J))
    (completed : List (Int × Int)) :
    collect_worker_results wr completed
      = (completed.flatMap (fun pr => match wr pr with | .ok d => d | .error _ => []),
         completed.filterMap
           (fun pr => match wr pr with | .ok _ => none | .error e => some (pr, e))) := by
  rw [collect_worker_results]
  suffices hgen : ∀ (a : List J) (b : List ((Int × Int) × String)),
      completed.foldl (fun acc pr => match wr pr with
        | .ok d => (acc.1 ++ d, acc.2)
        | .error e => (acc.1, acc.2 ++ [(pr, e)])) (a, b)
      = (a ++ completed.flatMap (fun pr => match wr pr with | .ok d => d | .error _ => []),
         b ++ completed.filterMap
           (fun pr => match wr pr with | .ok _ => none | .error e => some (pr, e))) by
    simpa using hgen [] []
  induction completed with
  | nil => intro a b; simp
  | cons pr rest ih =>
      intro a b
      rw [List.foldl_cons]
      cases hw : wr pr with
      | ok d => simp [hw, ih, List.append_assoc]
      | error e => simp [hw, ih, List.append_assoc]

/-- C6: a crashed worker (its future raises when result() is requested) is
caught at the pool boundary and reported together with its owning page range;
the collected data is exactly what it would be had the crashed range never
completed (all its units contribute nothing); and the exception does not
propagate — the loop is total and the data of every successful worker is
still collected. -/
theorem worker_crash_isolated (wr : Int × Int → Except String (List J))
    (completed : List (Int × Int)) (rho : Int × Int) (msg : String)
    (hmem : rho ∈ completed) (hcrash : wr rho = .error msg) :
    (rho, msg) ∈ (collect_worker_results wr completed).2 ∧
    (collect_worker_results wr completed).1
      = (collect_worker_results wr (completed.filter (fun r => r ≠ rho))).1 ∧
    (∀ r ∈ completed, ∀ d, wr r = .ok d → ∀ x ∈ d,
        x ∈ (collect_worker_results wr completed).1) := by
  have hflat : ∀ cs : List (Int × Int),
      cs.flatMap (fun pr => match wr pr with | .ok d => d | .error _ => [])
        = (cs.filter (fun r => r ≠ rho)).flatMap
            (fun pr => match wr pr with | .ok d => d | .error _ => []) := by
    intro cs
    induction cs with
    | nil => rfl
    | cons r rest ih =>
        rw [List.flatMap_cons, List.filter_cons]
        by_cases hr : r = rho
        · subst hr
          simp [hcrash, ih]
        · rw [if_pos (show decide (r ≠ rho) = true by simp [hr]), List.flatMap_cons, ih]
  refine ⟨?_, ?_, ?_⟩
  · rw [collect_worker_results_closed]
    show (rho, msg) ∈ completed.filterMap
      (fun pr => match wr pr with | .ok _ => none | .error e => some (pr, e))
    exact List.mem_filterMap.2 ⟨rho, hmem, by rw [hcrash]⟩
  · rw [collect_worker_results_closed, collect_worker_results_closed]
    exact hflat completed
  · intro r hr d hd x hx
    rw [collect_worker_results_closed]
    show x ∈ completed.flatMap (fun pr => match wr pr with | .ok d => d | .error _ => [])
    refine List.mem_flatMap.2 ⟨r, hr, ?_⟩
    rw [hd]
    exact hx

/-- Witness for C6: two completed ranges, the first crashes; the crash is
reported with its range, and the collected data matches the run without the
crashed range. -/
theorem worker_crash_isolated_witness :
    (((1 : Int), (3 : Int)), "boom") ∈ (collect_worker_results
        (fun r => if r = ((1 : Int), (3 : Int)) then Except.error "boom"
          else Except.ok [J.num 1])
        [((1 : Int), (3 : Int)), ((4 : Int), (5 : Int))]).2 ∧
      (collect_worker_results
          (fun r => if r = ((1 : Int), (3 : Int)) then Except.error "boom"
            else Except.ok [J.num 1])
          [((1 : Int), (3 : Int)), ((4 : Int), (5 : Int))]).1
        = (collect_worker_results
            (fun r => if r = ((1 : Int), (3 : Int)) then Except.error "boom"
              else Except.ok [J.num 1])
            ([((1 : Int), (3 : Int)), ((4 : Int), (5 : Int))].filter
              (fun r => r ≠ ((1 : Int), (3 : Int))))).1 := by
  have h := worker_crash_isolated
      (fun r => if r = ((1 : Int), (3 : Int)) then Except.error "boom" else Except.ok [J.num 1])
      [((1 : Int), (3 : Int)), ((4 : Int), (5 : Int))]
      ((1 : Int), (3 : Int)) "boom" (List.mem_cons_self _ _) (if_pos rfl)
  exact ⟨h.1, h.2.1⟩

/-- Outcome of a run of scraper.main up to the end of the fetch phase:
aborted by argument validation, crashed by an uncaught exception, or
completed with the collected data. -/
inductive RunOutcome where
  | invalidArgument (msg : String)
  | crashed (msg : String)
  | completed (data : List J)

/-- scraper.py main (lines 133 to 169) through the fetch phase. The argument
guards at lines 144 to 150 print an error and return before any fetch work
starts. With workers > 1 the parallel path partitions the pages (the
partitioner raises ZeroDivisionError exactly when min(workers, max_pages) is
zero, impossible past the guards) and collects worker results at the pool
boundary, catching every worker exception; with workers = 1 the single
fetch_data_with_browser call has no surrounding try, so a crash of the lone
worker would propagate. workerResult models fetch_data_with_browser on one
page range; completed is the order in which as_completed yields the parallel
futures. -/
def scraper_run (workerResult : Int × Int → Except String (List J))
    (completed : List (Int × Int)) (max_pages workers : Int) : RunOutcome :=
  if max_pages < 1 then .invalidArgument "max-pages must be at least 1"
  else if workers < 1 then .invalidArgument "workers must be at least 1"
  else if workers > 1 then
    match distribute_pages max_pages workers with
    | none => .crashed "ZeroDivisionError"
    | some _ => .completed (collect_worker_results workerResult completed).1
  else
    match workerResult (1, max_pages) with
    | .ok d => .completed d
    | .error e => .crashed e

/-- Outcome of a run of geometry_fetcher.main (lines 115 to 143). -/
inductive GeoRunOutcome where
  | invalidArgument (msg : String)
  | completed (geojson : J)

/-- geometry_fetcher.py main: the guard at lines 127 to 129 prints an error
and returns before any fetch; otherwise the run completes with the assembled
GeoJSON document. -/
def geometry_fetcher_run (fetch : J → HttpResult) (data : List (List (String × J)))
    (arrival : List J) (concurrent : Int) : GeoRunOutcome :=
  if concurrent < 1 then .invalidArgument "concurrent must be at least 1"
  else .completed (fetch_all_geometries fetch data arrival)

/-- C8 counterexample, covering both false parts of the claim at concrete
inputs. First, at total_units = -1 < 1 (worker_count = 2) the partitioner
does not fail, contradicting that it fails on such inputs: min(2, -1) = -1,
floor division by -1 succeeds, range(-1) is empty, and distribute_pages
returns an empty list of ranges. Second, InvalidArgument is not the only
error kind that can abort the run: with valid arguments max_pages = 5 and
workers = 1, the single fetch_data_with_browser call at scraper.py line 164
has no surrounding try, so a crash of the lone worker context propagates and
the run aborts with that exception. -/
theorem abort_policy_counterexample :
    ((-1 : Int) < 1 ∧ distribute_pages (-1) 2 = some []) ∧
      ((1 : Int) ≤ 5 ∧
        scraper_run (fun _ => Except.error "SessionNotCreatedException") [] 5 1
          = RunOutcome.crashed "SessionNotCreatedException") := by
  refine ⟨⟨by decide, rfl⟩, by decide, rfl⟩

/-- C8 amended: if total_units < 1 or worker_count < 1 the scraper run aborts
with an argument error before any fetch work starts, and likewise the
geometry fetcher when the concurrency bound is < 1; the partitioner itself
fails (ZeroDivisionError) exactly when min(worker_count, total_units) = 0,
and on other out-of-range inputs returns a range list without failing; with
valid arguments the parallel run (workers > 1) is never aborted by any other
error kind — worker and fetch errors are caught at the pool boundary and the
run completes — but in the single-worker path a crash of the lone worker
context propagates and aborts the run. -/
theorem invalid_argument_aborts :
    (∀ (wr : Int × Int → Except String (List J)) (completed : List (Int × Int))
        (mp w : Int), mp < 1 ∨ w < 1 →
        ∃ msg, scraper_run wr completed mp w = .invalidArgument msg) ∧
    (∀ (f : J → HttpResult) (data : List (List (String × J))) (arrival : List J)
        (c : Int), c < 1 →
        geometry_fetcher_run f data arrival c
          = .invalidArgument "concurrent must be at least 1") ∧
    (∀ mp w : Int, distribute_pages mp w = none ↔ min w mp = 0) ∧
    (∀ (wr : Int × Int → Except String (List J)) (completed : List (Int × Int))
        (mp w : Int), 1 ≤ mp → 1 < w →
        ∃ out, scraper_run wr completed mp w = .completed out) ∧
    (∀ (wr : Int × Int → Except String (List J)) (completed : List (Int × Int))
        (mp : Int) (e : String), 1 ≤ mp → wr (1, mp) = .error e →
        scraper_run wr completed mp 1 = .crashed e) := by
  refine ⟨?_, ?_, ?_, ?_, ?_⟩
  · intro wr completed mp w h
    by_cases h1 : mp < 1
    · exact ⟨_, by rw [scraper_run, if_pos h1]⟩
    · have h2 : w < 1 := by omega
      exact ⟨_, by rw [scraper_run, if_neg h1, if_pos h2]⟩
  · intro f data arrival c hc
    rw [geometry_fetcher_run, if_pos hc]
  · intro mp w
    by_cases h : min w mp = 0 <;> simp [distribute_pages, h]
  · intro wr completed mp w hmp hw
    have hne : ¬ min w mp = 0 := by omega
    rw [scraper_run, if_neg (by omega : ¬ mp < 1), if_neg (by omega : ¬ w < 1),
      if_pos hw, distribute_pages]
    simp only [if_neg hne]
    exact ⟨_, rfl⟩
  · intro wr completed mp e hmp hcrash
    rw [scraper_run, if_neg (by omega : ¬ mp < 1), if_neg (by omega : ¬ (1 : Int) < 1),
      if_neg (by omega : ¬ (1 : Int) > 1), hcrash]

/-- Witness for C8 amended at concrete arguments: max_pages = 0 aborts,
concurrent = 0 aborts, distribute_pages 0 5 raises, a valid parallel run
with a crashing worker still completes, and a valid single-worker run whose
lone worker crashes aborts with that exception. -/
theorem invalid_argument_aborts_witness :
    (∃ msg, scraper_run (fun _ => Except.ok []) [] 0 5 = RunOutcome.invalidArgument msg) ∧
      geometry_fetcher_run (fun _ => HttpResult.netError "x") [] [] 0
        = GeoRunOutcome.invalidArgument "concurrent must be at least 1" ∧
      (distribute_pages 0 5 = none ↔ min (5 : Int) 0 = 0) ∧
      (∃ out, scraper_run (fun _ => Except.error "crash") [] 7 3 = RunOutcome.completed out) ∧
      scraper_run (fun _ => Except.error "crash") [] 7 1 = RunOutcome.crashed "crash" := by
  have h := invalid_argument_aborts
  exact ⟨h.1 _ _ 0 5 (Or.inl (by norm_num)), h.2.1 _ _ _ 0 (by norm_num),
    h.2.2.1 0 5, h.2.2.2.1 _ _ 7 3 (by norm_num) (by norm_num),
    h.2.2.2.2 _ _ 7 "crash" (by norm_num) rfl⟩

theorem lookupKV_dictUpdate {κ β : Type} [DecidableEq κ] (d e : List (κ × β))
    (h : (e.map Prod.fst).Nodup) (k : κ) :
    lookupKV (dictUpdate d e) k = (lookupKV e k).or (lookupKV d k) := by
  rw [dictUpdate, lookupKV_foldl_insert, lookupKV_reverse_nodup _ h]

theorem mapM_ok_of_forall {α β : Type} (g : α → Except String β) (l : List α)
    (h : ∀ x ∈ l, ∃ y, g x = .ok y) :
    ∃ out, l.mapM g = .ok out ∧ out.length = l.length ∧
      ∀ (i : Nat) (hi : i < l.length) (ho : i < out.length),
        g (l.get ⟨i, hi⟩) = .ok (out.get ⟨i, ho⟩) := by
  induction l with
  | nil =>
      refine ⟨[], rfl, rfl, ?_⟩
      intro i hi
      exact absurd hi (by simp)
  | cons x xs ih =>
      obtain ⟨y, hy⟩ := h x (List.mem_cons_self _ _)
      obtain ⟨out, hout, hlen, hget⟩ := ih (fun z hz => h z (List.mem_cons_of_mem _ hz))
      refine ⟨y :: out, ?_, by simp [hlen], ?_⟩
      · rw [List.mapM_cons, hy, hout]
        rfl
      · intro i hi ho
        cases i with
        | zero => simpa using hy
        | succ n => simpa using hget n (by simpa using hi) (by simpa using ho)

/-- The per-sub-record body of the flatten loop (flatten_geojson.py lines 23
to 31): new_feature = nested_feature.copy() (a dict shallow copy, the list
itself in this model), new_properties = properties.copy() updated with the
sub-record properties when that key is present with a truthy value, then
new_feature["properties"] = new_properties and the new feature is emitted.
A sub-record that is not a dict makes the source raise (no .copy and no
subscript), and a truthy properties value that is not a dict makes
dict.update raise; both are modelled as errors. -/
def flattenNested (properties : List (String × J)) (nf : J) : Except String J :=
  match nf with
  | .obj nfo =>
      (match lookupKV nfo "properties" with
        | some p =>
            if p.truthy then
              match p with
              | .obj po => Except.ok (dictUpdate properties po)
              | _ => Except.error "TypeError"
            else Except.ok properties
        | none => Except.ok properties).map
        (fun np => J.obj (insertKV nfo "properties" (J.obj np)))
  | _ => Except.error "AttributeError"

/-- The per-feature body of the flatten loop (flatten_geojson.py lines 18 to
34). A feature whose geometry value (default the empty dict) is a dict whose
type field equals the string FeatureCollection is flattened: every entry of
its features list (default the empty list) becomes one top-level output
entry; any other feature is appended unchanged (one entry). A feature or
geometry of the wrong shape makes the source raise on .get, iteration or
.copy and is modelled as an error. -/
def flattenFeature (feature : J) : Except String (List J) :=
  match feature with
  | .obj f =>
      match (lookupKV f "geometry").getD (J.obj []) with
      | .obj g =>
          match lookupKV g "type" with
          | some t =>
              if t = J.str "FeatureCollection" then
                match (lookupKV g "features").getD (J.arr []) with
                | .arr nfs =>
                    nfs.mapM (fun nf =>
                      match (lookupKV f "properties").getD (J.obj []) with
                      | .obj pd => flattenNested pd nf
                      | _ => Except.error "AttributeError")
                | _ => Except.error "TypeError"
              else Except.ok [feature]
          | none => Except.ok [feature]
      | _ => Except.error "AttributeError"
  | _ => Except.error "AttributeError"

/-- The flatten loop of flatten_geojson.py (lines 18 to 34) over the whole
features list, in input order; a raised error aborts the run. -/
def flatten_features (features : List J) : Except String (List J) :=
  features.foldlM (fun acc feature => (flattenFeature feature).map (fun es => acc ++ es)) []

/-- flatten_geojson.py flatten_geojson (lines 5 to 40) with file I/O elided:
requires a FeatureCollection at top level (otherwise the source prints an
error and returns without writing output, modelled as an error), flattens the
features list, and wraps the result with the FeatureCollection type tag. -/
def flatten_geojson (data : J) : Except String J :=
  match data with
  | .obj d =>
      match lookupKV d "type" with
      | some t =>
          if t = J.str "FeatureCollection" then
            match (lookupKV d "features").getD (J.arr []) with
            | .arr fs =>
                (flatten_features fs).map
                  (fun out => J.obj
                    [("type", J.str "FeatureCollection"), ("features", J.arr out)])
            | _ => Except.error "TypeError"
          else Except.error "NotAFeatureCollection"
      | none => Except.error "NotAFeatureCollection"
  | _ => Except.error "AttributeError"

/-- Shape required of a sub-record for the flatten body not to raise: it is a
dict, and when it carries a truthy properties value that value is a dict with
distinct keys (a Python dict always has distinct keys). -/
def nestedWF (nf : J) : Prop :=
  ∃ nfo, nf = J.obj nfo ∧
    ∀ p, lookupKV nfo "properties" = some p → p.truthy = true →
      ∃ po, p = J.obj po ∧ (po.map Prod.fst).Nodup

/-- Lookup into the properties of a sub-record when they are carried as a
dict — what the claim calls the sub-record own properties; none otherwise. -/
def nestedProps (nfo : List (String × J)) (k : String) : Option J :=
  match lookupKV nfo "properties" with
  | some (J.obj po) => lookupKV po k
  | _ => none

theorem flattenNested_ok (pd nfo : List (String × J))
    (hwf_inner : ∀ p, lookupKV nfo "properties" = some p → p.truthy = true →
      ∃ po, p = J.obj po ∧ (po.map Prod.fst).Nodup) :
    ∃ np, flattenNested pd (J.obj nfo) = .ok (J.obj (insertKV nfo "properties" (J.obj np))) ∧
      ∀ k, lookupKV np k = (nestedProps nfo k).or (lookupKV pd k) := by
  cases hlp : lookupKV nfo "properties" with
  | none =>
      refine ⟨pd, ?_, ?_⟩
      · simp [flattenNested, hlp, Except.map]
      · intro k
        simp [nestedProps, hlp, Option.or]
  | some p =>
      by_cases htr : p.truthy = true
      · obtain ⟨po, rfl, hnodup⟩ := hwf_inner p hlp htr
        refine ⟨dictUpdate pd po, ?_, ?_⟩
        · simp [flattenNested, hlp, htr, Except.map]
        · intro k
          rw [lookupKV_dictUpdate pd po hnodup k]
          simp [nestedProps, hlp]
      · refine ⟨pd, ?_, ?_⟩
        · simp [flattenNested, hlp, htr, Except.map]
        · intro k
          cases p with
          | obj po =>
              have hpo : po = [] := by
                by_contra hne
                exact htr (by simp [J.truthy, hne])
              subst hpo
              simp [nestedProps, hlp, lookupKV, Option.or]
          | null => simp [nestedProps, hlp, Option.or]
          | bool b => simp [nestedProps, hlp, Option.or]
          | num n => simp [nestedProps, hlp, Option.or]
          | str s => simp [nestedProps, hlp, Option.or]
          | arr es => simp [nestedProps, hlp, Option.or]

/-- C2: a feature whose geometry is itself a FeatureCollection flattens to
exactly one top-level output entry per sub-record; each output entry is that
sub-record with its properties replaced by the outer properties updated with
its own (outer-then-inner merge order), so on every key the merged value is
the sub-record value when its own properties carry the key and the outer
value otherwise — the sub-record wins each collision. -/
theorem flatten_nested_collection (f g : List (String × J)) (nfs : List J)
    (pd : List (String × J))
    (hg : lookupKV f "geometry" = some (J.obj g))
    (ht : lookupKV g "type" = some (J.str "FeatureCollection"))
    (hfs : lookupKV g "features" = some (J.arr nfs))
    (hp : lookupKV f "properties" = some (J.obj pd))
    (hwf : ∀ nf ∈ nfs, nestedWF nf) :
    ∃ out, flattenFeature (J.obj f) = Except.ok out ∧ out.length = nfs.length ∧
      ∀ (i : Nat) (hi : i < nfs.length) (ho : i < out.length),
        ∃ nfo np, nfs.get ⟨i, hi⟩ = J.obj nfo ∧
          out.get ⟨i, ho⟩ = J.obj (insertKV nfo "properties" (J.obj np)) ∧
          ∀ k, lookupKV np k = (nestedProps nfo k).or (lookupKV pd k) := by
  have hred : flattenFeature (J.obj f) = nfs.mapM (flattenNested pd) := by
    have h1 : flattenFeature (J.obj f)
        = nfs.mapM (fun nf =>
            match (lookupKV f "properties").getD (J.obj []) with
            | J.obj pd2 => flattenNested pd2 nf
            | _ => Except.error "AttributeError") := by
      simp [flattenFeature, hg, ht, hfs]
    rw [h1]
    have h2 : (fun nf =>
        match (lookupKV f "properties").getD (J.obj []) with
        | J.obj pd2 => flattenNested pd2 nf
        | _ => Except.error "AttributeError") = flattenNested pd := by
      funext nf
      simp [hp]
    rw [h2]
  have hsucc : ∀ nf ∈ nfs, ∃ y, flattenNested pd nf = .ok y := by
    intro nf hnf
    obtain ⟨nfo, rfl, hin⟩ := hwf nf hnf
    obtain ⟨np, hok, -⟩ := flattenNested_ok pd nfo hin
    exact ⟨_, hok⟩
  obtain ⟨out, hout, hlen, hget⟩ := mapM_ok_of_forall _ nfs hsucc
  refine ⟨out, by rw [hred]; exact hout, hlen, ?_⟩
  intro i hi ho
  obtain ⟨nfo, hobj, hin⟩ := hwf _ (nfs.get_mem i hi)
  obtain ⟨np, hok, hlook⟩ := flattenNested_ok pd nfo hin
  refine ⟨nfo, np, hobj, ?_, hlook⟩
  have hgi := hget i hi ho
  rw [hobj, hok] at hgi
  exact (Except.ok.inj hgi).symm

/-- Witness for C2: a feature with 2 outer scalar properties and a geometry
that is a FeatureCollection of 3 sub-records yields exactly 3 output
entries. -/
theorem flatten_nested_collection_witness :
    ∃ out, flattenFeature (J.obj
        [("type", J.str "Feature"),
         ("properties", J.obj [("a", J.num 1), ("b", J.num 2)]),
         ("geometry", J.obj
           [("type", J.str "FeatureCollection"),
            ("features", J.arr
              [J.obj [("properties", J.obj [("a", J.num 9)])],
               J.obj [("geometry", J.num 0)],
               J.obj []])])])
      = Except.ok out ∧ out.length = 3 := by
  have hwf0 : ∀ nf ∈ [J.obj [("properties", J.obj [("a", J.num 9)])],
      J.obj [("geometry", J.num 0)], J.obj []], nestedWF nf := by
    intro nf hnf
    simp only [List.mem_cons, List.not_mem_nil, or_false] at hnf
    rcases hnf with rfl | rfl | rfl
    · refine ⟨_, rfl, fun p hp htr => ⟨[("a", J.num 9)], ?_, by simp⟩⟩
      have hsome : some (J.obj [("a", J.num 9)]) = some p := by
        rw [← hp]
        simp [lookupKV]
      exact (Option.some.inj hsome).symm
    · refine ⟨_, rfl, fun p hp htr => ?_⟩
      simp [lookupKV] at hp
    · refine ⟨_, rfl, fun p hp htr => ?_⟩
      simp [lookupKV] at hp
  obtain ⟨out, h1, h2, -⟩ := flatten_nested_collection
      [("type", J.str "Feature"),
       ("properties", J.obj [("a", J.num 1), ("b", J.num 2)]),
       ("geometry", J.obj
         [("type", J.str "FeatureCollection"),
          ("features", J.arr
            [J.obj [("properties", J.obj [("a", J.num 9)])],
             J.obj [("geometry", J.num 0)],
             J.obj []])])]
      [("type", J.str "FeatureCollection"),
       ("features", J.arr
         [J.obj [("properties", J.obj [("a", J.num 9)])],
          J.obj [("geometry", J.num 0)],
          J.obj []])]
      [J.obj [("properties", J.obj [("a", J.num 9)])],
       J.obj [("geometry", J.num 0)],
       J.obj []]
      [("a", J.num 1), ("b", J.num 2)]
      (by simp [lookupKV]) (by simp [lookupKV]) (by simp [lookupKV]) (by simp [lookupKV])
      hwf0
  exact ⟨out, h1, h2⟩

/-- Python subscript j[k] with a string key: the value when j is a dict
carrying the key, KeyError when the key is absent, TypeError when j is not a
dict (list and str indices must be integers). -/
def pySubscript (j : J) (k : String) : Except String J :=
  match j with
  | .obj kvs =>
      match lookupKV kvs k with
      | some v => .ok v
      | none => .error "KeyError"
  | _ => .error "TypeError"

/-- Python subscript j[i] with an int index: list element or one-character
string, IndexError past the end, KeyError on a dict whose keys are strings,
TypeError otherwise. -/
def pyIndex (j : J) (i : Nat) : Except String J :=
  match j with
  | .arr xs => if h : i < xs.length then .ok (xs.get ⟨i, h⟩) else .error "IndexError"
  | .str s =>
      if h : i < s.data.length then .ok (.str ⟨[s.data.get ⟨i, h⟩]⟩) else .error "IndexError"
  | .obj _ => .error "KeyError"
  | _ => .error "TypeError"

/-- The Python membership test "geometry" in meta from scraper.py line 76:
key membership on a dict, element membership on a list, substring test on a
string, TypeError on the other shapes. -/
def pyContainsGeometry (j : J) : Except String Bool :=
  match j with
  | .obj kvs => .ok (lookupKV kvs "geometry").isSome
  | .arr xs => .ok (xs.any (fun x => match x with | .str s => s = "geometry" | _ => false))
  | .str s => .ok ((s.splitOn "geometry").length > 1)
  | _ => .error "TypeError"

/-- The processed_item dict built by scraper.py process_data (lines 67 to
77): a fixed-key record, with the keys renamed through HEADER_MAPPINGS. -/
structure ScrapedRecord where
  number : J
  municipality : J
  zone_name : J
  zone_code : J
  geometry_id : J

/-- The body of the process_data loop for one item (scraper.py lines 67 to
77), field values evaluated in the order of the dict literal: columns 0 to 3,
then geometry_id = item["meta"]["geometry"] if "geometry" in item["meta"]
else None. item["columns"] is read afresh for each column in the source; for
a dict value the reads agree, so it is bound once here. -/
def processItem (item : J) : Except String ScrapedRecord := do
  let cols ← pySubscript item "columns"
  let c0 ← pyIndex cols 0
  let c1 ← pyIndex cols 1
  let c2 ← pyIndex cols 2
  let c3 ← pyIndex cols 3
  let meta ← pySubscript item "meta"
  let hasGeom ← pyContainsGeometry meta
  let gid ← if hasGeom then pySubscript meta "geometry" else pure J.null
  pure ⟨c0, c1, c2, c3, gid⟩

/-- scraper.py process_data (lines 63 to 82): build each processed_item in
input order and append it only when its geometry_id is truthy (line 79); an
exception raised while building an item aborts the whole call. -/
def process_data (data : List J) : Except String (List ScrapedRecord) :=
  data.foldlM
    (fun acc item => do
      let r ← processItem item
      pure (if r.geometry_id.truthy then acc ++ [r] else acc))
    []

/-- The JSON object a ScrapedRecord becomes when process_data output is
dumped to data.json and read back by geometry_fetcher (field order of the
dict literal at lines 67 to 77). -/
def recordToObj (r : ScrapedRecord) : List (String × J) :=
  [("number", r.number), ("municipality", r.municipality), ("zone_name", r.zone_name),
   ("zone_code", r.zone_code), ("geometry_id", r.geometry_id)]

theorem except_pure_eq {e a : Type} (x : a) : (pure x : Except e a) = Except.ok x := rfl

theorem except_bind_ok {e a b : Type} (x : a) (f : a → Except e b) :
    (Except.ok x >>= f : Except e b) = f x := rfl

theorem except_bind_error {e a b : Type} (err : e) (f : a → Except e b) :
    ((Except.error err : Except e a) >>= f) = Except.error err := rfl

theorem except_map_ok_eq {e a b : Type} (f : a → b) (x : a) :
    (Except.map f (Except.ok x) : Except e b) = Except.ok (f x) := rfl

theorem except_map_error_eq {e a b : Type} (f : a → b) (err : e) :
    (Except.map f (Except.error err) : Except e b) = Except.error err := rfl

theorem process_data_eq_filter (data : List J) :
    process_data data
      = (data.mapM processItem).map
          (fun recs => recs.filter (fun r => r.geometry_id.truthy)) := by
  rw [process_data]
  suffices hgen : ∀ acc : List ScrapedRecord,
      data.foldlM
        (fun acc item => do
          let r ← processItem item
          pure (if r.geometry_id.truthy then acc ++ [r] else acc))
        acc
      = (data.mapM processItem).map
          (fun recs => acc ++ recs.filter (fun r => r.geometry_id.truthy)) by
    have h := hgen []
    simpa using h
  induction data with
  | nil =>
      intro acc
      show Except.ok acc = Except.map _ (List.mapM processItem [])
      show Except.ok acc
        = Except.ok (acc ++ List.filter (fun r => r.geometry_id.truthy) [])
      rw [List.filter_nil, List.append_nil]
  | cons item rest ih =>
      intro acc
      rw [List.foldlM_cons, List.mapM_cons]
      cases hpi : processItem item with
      | error e2 =>
          simp only [except_bind_error, except_map_error_eq]
      | ok r =>
          show List.foldlM
              (fun (acc2 : List ScrapedRecord) (item2 : J) =>
                (do
                  let r2 ← processItem item2
                  pure (if r2.geometry_id.truthy then acc2 ++ [r2] else acc2) :
                  Except String (List ScrapedRecord)))
              (if r.geometry_id.truthy then acc ++ [r] else acc) rest
            = _
          rw [ih]
          cases hm : rest.mapM processItem with
          | error e2 =>
              rw [except_map_error_eq, except_bind_ok, except_bind_error,
                except_map_error_eq]
          | ok recs =>
              rw [except_map_ok_eq, except_bind_ok, except_bind_ok,
                except_pure_eq, except_map_ok_eq]
              by_cases htr : r.geometry_id.truthy = true <;>
                simp [htr, List.filter_cons, List.append_assoc]

/-- C10: a record whose geometry_id comes out absent or otherwise falsy is
silently excluded before any fetch is attempted: process_data keeps exactly
the records with a truthy geometry_id (everything else about the input list
is preserved in order, nothing is recorded for the dropped items); the units
list geometry_fetcher later builds from a processed output is exactly the
list of all its (truthy) ids, and for any input at all the units list never
contains a falsy id, so a dropped record is neither fetched nor counted in
the attempted or failed totals. -/
theorem falsy_gid_silently_excluded (data : List J) (out : List ScrapedRecord)
    (h : process_data data = .ok out) :
    (∀ r ∈ out, r.geometry_id.truthy = true) ∧
    (∃ recs, data.mapM processItem = .ok recs ∧
        out = recs.filter (fun r => r.geometry_id.truthy)) ∧
    geometry_ids_of (out.map recordToObj) = out.map (fun r => r.geometry_id) ∧
    (∀ data2 : List (List (String × J)), ∀ gid ∈ geometry_ids_of data2,
        gid.truthy = true) := by
  rw [process_data_eq_filter] at h
  cases hm : data.mapM processItem with
  | error e2 =>
      rw [hm, except_map_error_eq] at h
      exact Except.noConfusion h
  | ok recs =>
      rw [hm, except_map_ok_eq] at h
      have hout : out = recs.filter (fun r => r.geometry_id.truthy) := (Except.ok.inj h).symm
      have hall : ∀ r ∈ out, r.geometry_id.truthy = true := by
        intro r hr
        rw [hout] at hr
        exact (List.mem_filter.1 hr).2
      have hgid : ∀ r : ScrapedRecord, item_get (recordToObj r) "geometry_id" = r.geometry_id := by
        intro r
        simp [recordToObj, item_get, lookupKV]
      refine ⟨hall, ⟨recs, rfl, hout⟩, ?_, ?_⟩
      · rw [geometry_ids_of]
        have hfil : (out.map recordToObj).filter
            (fun item => (item_get item "geometry_id").truthy) = out.map recordToObj := by
          apply List.filter_eq_self.2
          intro a ha
          rcases List.mem_map.1 ha with ⟨r, hr, rfl⟩
          rw [hgid r]
          exact hall r hr
        rw [hfil, List.map_map]
        apply List.map_congr_left
        intro r _
        exact hgid r
      · intro data2 gid hg
        rcases List.mem_map.1 hg with ⟨item, hitem, rfl⟩
        exact (List.mem_filter.1 hitem).2

/-- Witness for C10: of two scraped items, one with a geometry id and one
whose meta has no geometry key (id becomes None, falsy), only the first
survives process_data, and the units list built from the output is exactly
its id. -/
theorem falsy_gid_silently_excluded_witness :
    geometry_ids_of
        ([(⟨J.num 1, J.str "m", J.str "z", J.str "c", J.str "G1"⟩ : ScrapedRecord)].map
          recordToObj)
      = [J.str "G1"] := by
  have h := falsy_gid_silently_excluded
      [J.obj [("columns", J.arr [J.num 1, J.str "m", J.str "z", J.str "c"]),
         ("meta", J.obj [("geometry", J.str "G1")])],
       J.obj [("columns", J.arr [J.num 1, J.str "m", J.str "z", J.str "c"]),
         ("meta", J.obj [])]]
      [⟨J.num 1, J.str "m", J.str "z", J.str "c", J.str "G1"⟩]
      (by rfl)
  rw [h.2.2.1]
  rfl
